import Mathlib

/-!
Verification of the state-synchronization core of the ssh-key-manager
repository: a shallow embedding of internal/sync/incremental.go,
internal/sync/history.go and the record type of internal/models/key.go,
together with theorems settling the specification claims about change
detection, conflict resolution, change application, checksums and the
sync-history ledger.

Conventions of the embedding:
- Go time.Time values are modelled as integer timestamps (abbrev Time);
  t1.After(t2) is the strict comparison t2 < t1.
- Go maps built from slices (later assignments overwrite earlier ones) are
  modelled by last-occurrence lookup over the originating list.
- Fallible operations return a success flag or an Option; a Go runtime
  panic is modelled as Option.none.
-/

namespace SyncSpec

/-- Go time.Time modelled as an integer instant; After is strict greater-than. -/
abbrev Time := Int

/-- models.Key from internal/models/key.go: an SSH key record with its
metadata.  Pointer-to-time fields are modelled as Option Time; the KeyType
string alias is modelled as String. -/
structure Key where
  name : String
  type : String
  path : String
  pubPath : String
  tags : List String
  comment : String
  createdAt : Time
  updatedAt : Time
  fingerprint : String
  installed : Bool
  rsaBits : Int
  hasPassphrase : Bool
  lastRotatedAt : Option Time
  rotationDueAt : Option Time
  rotatedFrom : String
  deriving Repr, DecidableEq

/-- The zero value of models.Key (Go zero strings, zero times, false booleans,
nil slices and nil pointers). -/
def zeroKey : Key :=
  { name := "", type := "", path := "", pubPath := "", tags := [],
    comment := "", createdAt := 0, updatedAt := 0, fingerprint := "",
    installed := false, rsaBits := 0, hasPassphrase := false,
    lastRotatedAt := none, rotationDueAt := none, rotatedFrom := "" }

instance : Inhabited Key := ⟨zeroKey⟩

/-- The anonymous struct serialized inside ComputeChecksum: exactly the seven
qualifying fields of a key, in the field order of the Go source. -/
structure ChecksumData where
  name : String
  type : String
  fingerprint : String
  path : String
  comment : String
  tags : List String
  createdAt : Time
  deriving Repr, DecidableEq

/-- A checksum value.  The Go code JSON-marshals the ChecksumData struct and
returns the hex SHA-256 of the bytes; the JSON encoding is injective on this
struct and the hash is modelled as collision-free, so the checksum is
represented by the canonical field data itself. -/
abbrev Checksum := ChecksumData

/-- ComputeChecksum from internal/sync/incremental.go: the deterministic
fingerprint of a key, built from the seven qualifying fields only. -/
def ComputeChecksum (key : Key) : Checksum :=
  { name := key.name, type := key.type, fingerprint := key.fingerprint,
    path := key.path, comment := key.comment, tags := key.tags,
    createdAt := key.createdAt }

/-- ChangeType from internal/sync/incremental.go. -/
inductive ChangeType where
  | create
  | update
  | delete
  deriving Repr, DecidableEq

/-- KeyChange from internal/sync/incremental.go.  The Go Checksum field is a
string that is empty for deletes; it is modelled as Option Checksum with none
for the empty string. -/
structure KeyChange where
  type : ChangeType
  key : Key
  timestamp : Time
  deviceID : String
  checksum : Option Checksum
  deriving Repr, DecidableEq

/-- SyncStrategy is a string alias in the Go source. -/
abbrev SyncStrategy := String

def StrategyLocalWins : SyncStrategy := "local"

def StrategyRemoteWins : SyncStrategy := "remote"

def StrategyNewerWins : SyncStrategy := "newer"

def StrategyManual : SyncStrategy := "manual"

/-- ConflictResolution from internal/sync/incremental.go. -/
structure ConflictResolution where
  keyName : String
  localKey : Key
  remoteKey : Key
  strategy : SyncStrategy
  resolvedKey : Key
  deriving Repr, DecidableEq

/-- Last-occurrence lookup of a key by name, modelling a Go map[string]Key
built by iterating a slice in order (later entries overwrite earlier ones). -/
def mapGet (keys : List Key) (n : String) : Option Key :=
  keys.reverse.find? (fun k => k.name == n)

/-- Last-occurrence lookup in a name-to-checksum association list, modelling
the Go map[string]string of checksums. -/
def checksGet (m : List (String × Checksum)) (n : String) : Option Checksum :=
  (m.reverse.find? (fun p => p.1 == n)).map Prod.snd

/-- UpdateLocalState from internal/sync/incremental.go: rebuilds the local
checksum mapping with one entry per key, keyed by name.  The Go map is
modelled as the association list of (name, checksum) pairs. -/
def UpdateLocalState (keys : List Key) : List (String × Checksum) :=
  keys.map (fun k => (k.name, ComputeChecksum k))

/-- The body of the first loop of DetectChanges, applied to one entry of the
local checksum mapping: emit a Create when the name is absent remotely, an
Update when both checksums are present but differ, nothing when they agree.
The full record is recovered from the localMap, defaulting to the zero key
exactly as a Go map lookup does. -/
def localPass (deviceID : String) (now : Time) (localKeys : List Key)
    (remoteChecks : List (String × Checksum)) (p : String × Checksum) :
    Option KeyChange :=
  match checksGet remoteChecks p.1 with
  | none =>
      some { type := ChangeType.create, key := (mapGet localKeys p.1).getD zeroKey,
             timestamp := now, deviceID := deviceID, checksum := some p.2 }
  | some rc =>
      if p.2 ≠ rc then
        some { type := ChangeType.update, key := (mapGet localKeys p.1).getD zeroKey,
               timestamp := now, deviceID := deviceID, checksum := some p.2 }
      else none

/-- The body of the second loop of DetectChanges, applied to one entry of the
remote checksum mapping: emit a Delete (name-only payload, empty checksum)
when the name is absent from the local mapping. -/
def remotePass (deviceID : String) (now : Time)
    (localChecks : List (String × Checksum)) (p : String × Checksum) :
    Option KeyChange :=
  match checksGet localChecks p.1 with
  | some _ => none
  | none =>
      some { type := ChangeType.delete, key := { zeroKey with name := p.1 },
             timestamp := now, deviceID := deviceID, checksum := none }

/-- DetectChanges from internal/sync/incremental.go.  The receiver state is
passed explicitly: deviceID and the two checksum mappings; now stands for
time.Now().  The first loop scans the local mapping emitting Creates and
Updates, the second scans the remote mapping emitting Deletes, so all
Deletes follow all Creates and Updates. -/
def DetectChanges (deviceID : String) (now : Time) (localKeys : List Key)
    (localChecks remoteChecks : List (String × Checksum)) : List KeyChange :=
  localChecks.filterMap (localPass deviceID now localKeys remoteChecks)
  ++ remoteChecks.filterMap (remotePass deviceID now localChecks)

/-- The body of the DetectConflicts loop for one local key: when a remote
record with the same name exists and the two checksums (recomputed from the
full records) differ, emit a ConflictResolution carrying both records and
the configured strategy, with ResolvedKey left at its zero value. -/
def conflictFor (strategy : SyncStrategy) (remoteKeys : List Key) (lk : Key) :
    Option ConflictResolution :=
  match mapGet remoteKeys lk.name with
  | none => none
  | some rk =>
      if ComputeChecksum lk ≠ ComputeChecksum rk then
        some { keyName := lk.name, localKey := lk, remoteKey := rk,
               strategy := strategy, resolvedKey := zeroKey }
      else none

/-- DetectConflicts from internal/sync/incremental.go: compares the two full
record sets, recomputing checksums from the records.  The Go code iterates
the name-keyed localMap; the model iterates localKeys, which coincides when
local names are distinct. -/
def DetectConflicts (strategy : SyncStrategy) (localKeys remoteKeys : List Key) :
    List ConflictResolution :=
  localKeys.filterMap (conflictFor strategy remoteKeys)

/-- ResolveConflict from internal/sync/incremental.go: switches on the
strategy string, writes the winner into ResolvedKey and returns it.  A
strategy matching no case leaves the conflict untouched and returns its
current ResolvedKey.  The updated conflict is returned alongside the key to
model the mutation through the pointer argument. -/
def ResolveConflict (c : ConflictResolution) : ConflictResolution × Key :=
  let c1 :=
    if c.strategy = StrategyLocalWins then { c with resolvedKey := c.localKey }
    else if c.strategy = StrategyRemoteWins then { c with resolvedKey := c.remoteKey }
    else if c.strategy = StrategyNewerWins then
      if c.remoteKey.updatedAt < c.localKey.updatedAt then
        { c with resolvedKey := c.localKey }
      else
        { c with resolvedKey := c.remoteKey }
    else if c.strategy = StrategyManual then { c with resolvedKey := c.localKey }
    else c
  (c1, c1.resolvedKey)

/-- The name-keyed working set built by ApplyChanges, modelling the Go
map[string]Key. -/
abbrev KeyMap := String → Option Key

/-- The working set built from a slice of keys (later names overwrite). -/
def toKeyMap (keys : List Key) : KeyMap := fun n => mapGet keys n

/-- One iteration of the change-application loop of ApplyChanges:
Create/Update upsert the change record under its name, Delete removes the
name (a no-op when absent, as for the Go delete builtin). -/
def applyOne (m : KeyMap) (c : KeyChange) : KeyMap :=
  match c.type with
  | ChangeType.create => fun n => if n = c.key.name then some c.key else m n
  | ChangeType.update => fun n => if n = c.key.name then some c.key else m n
  | ChangeType.delete => fun n => if n = c.key.name then none else m n

/-- ApplyChanges from internal/sync/incremental.go, at the level of the
name-keyed working set: folds the change list over the map.  The Go function
converts the final map back to a slice in unspecified order, so the
name-keyed map is the canonical result. -/
def ApplyChanges (m : KeyMap) (changes : List KeyChange) : KeyMap :=
  changes.foldl applyOne m

/-- SyncHistoryEntry from internal/sync/history.go.  Duration is modelled as
an integer number of nanoseconds. -/
structure SyncHistoryEntry where
  id : String
  timestamp : Time
  deviceID : String
  direction : String
  changesApplied : Int
  conflictsFound : Int
  success : Bool
  error : String
  changes : List KeyChange
  duration : Int
  deriving Repr, DecidableEq

/-- SyncHistory from internal/sync/history.go: the in-memory entry list and
the configured maximum retained-entry count.  The history file path only
names the persistence location and plays no role in the modelled logic. -/
structure SyncHistory where
  entries : List SyncHistoryEntry
  maxEntries : Nat
  deriving Repr, DecidableEq

/-- The ordering used by Save and GetRecent: entry a sorts before entry b
when a is at least as recent (sort.Slice with Timestamp.After as the
less-than, which orders descending by timestamp). -/
def entryIsNewer (a b : SyncHistoryEntry) : Prop := b.timestamp ≤ a.timestamp

instance : DecidableRel entryIsNewer :=
  fun a b => inferInstanceAs (Decidable (b.timestamp ≤ a.timestamp))

instance : IsTotal SyncHistoryEntry entryIsNewer :=
  ⟨fun a b => le_total b.timestamp a.timestamp⟩

instance : IsTrans SyncHistoryEntry entryIsNewer :=
  ⟨fun _ _ _ h1 h2 => le_trans h2 h1⟩

/-- Newest-first sorting of history entries.  Go uses an unspecified unstable
sort; any permutation sorted descending by timestamp is a faithful model, and
insertion sort is used so the definition evaluates by reduction. -/
def sortEntries (l : List SyncHistoryEntry) : List SyncHistoryEntry :=
  l.insertionSort entryIsNewer

/-- The points at which Save can fail: directory creation fails before the
sort-and-truncate step, the file write fails after it, or everything
succeeds.  Marshalling of the entry list cannot fail. -/
inductive SaveMode where
  | ok
  | mkdirFail
  | writeFail
  deriving Repr, DecidableEq

/-- Save from internal/sync/history.go: sorts the in-memory entries newest
first, truncates to maxEntries when the list is longer, then writes the file.
Returns the resulting in-memory state and a success flag (false models a
returned error). -/
def Save (h : SyncHistory) (mode : SaveMode) : SyncHistory × Bool :=
  match mode with
  | SaveMode.mkdirFail => (h, false)
  | SaveMode.writeFail =>
      let sorted := sortEntries h.entries
      let entries1 := if h.maxEntries < sorted.length then sorted.take h.maxEntries else sorted
      ({ h with entries := entries1 }, false)
  | SaveMode.ok =>
      let sorted := sortEntries h.entries
      let entries1 := if h.maxEntries < sorted.length then sorted.take h.maxEntries else sorted
      ({ h with entries := entries1 }, true)

/-- Add from internal/sync/history.go: appends the entry to the in-memory
list exactly as given and calls Save. -/
def Add (h : SyncHistory) (entry : SyncHistoryEntry) (mode : SaveMode) :
    SyncHistory × Bool :=
  Save { h with entries := h.entries ++ [entry] } mode

/-- GetRecent from internal/sync/history.go: caps n at the entry count, sorts
newest first and returns the first n entries.  A negative n survives the cap
and makes the Go slice expression panic at runtime; the panic is modelled as
none. -/
def GetRecent (h : SyncHistory) (n : Int) : Option (List SyncHistoryEntry) :=
  let len : Int := h.entries.length
  let n1 := if len < n then len else n
  if n1 < 0 then none
  else some ((sortEntries h.entries).take n1.toNat)

/-! Concrete sample values used by counterexamples and witnesses. -/

/-- A local key copy used in conflict examples: updated at instant 100. -/
def tieLocalKey : Key :=
  { zeroKey with name := "k", comment := "local-copy", updatedAt := 100 }

/-- A remote key copy with the same name and the same update instant but a
different comment, so its checksum differs from tieLocalKey. -/
def tieRemoteKey : Key :=
  { zeroKey with name := "k", comment := "remote-copy", updatedAt := 100 }

/-- A NewerWins conflict whose two sides carry exactly equal timestamps. -/
def tieConflict : ConflictResolution :=
  { keyName := "k", localKey := tieLocalKey, remoteKey := tieRemoteKey,
    strategy := StrategyNewerWins, resolvedKey := zeroKey }

/-- A conflict whose strategy string matches none of the four enumerated
strategies, with ResolvedKey at its zero value as DetectConflicts leaves it. -/
def unknownConflict : ConflictResolution :=
  { keyName := "k", localKey := tieLocalKey, remoteKey := tieRemoteKey,
    strategy := "bogus", resolvedKey := zeroKey }

/-- Sample ledger entry with timestamp 1. -/
def sampleEntry1 : SyncHistoryEntry :=
  { id := "e1", timestamp := 1, deviceID := "dev", direction := "push",
    changesApplied := 0, conflictsFound := 0, success := true, error := "",
    changes := [], duration := 0 }

/-- Sample ledger entry with timestamp 2. -/
def sampleEntry2 : SyncHistoryEntry :=
  { sampleEntry1 with id := "e2", timestamp := 2 }

/-- Sample ledger entry with timestamp 3. -/
def sampleEntry3 : SyncHistoryEntry :=
  { sampleEntry1 with id := "e3", timestamp := 3 }

/-- A history entry whose ID and Timestamp are both at their zero values. -/
def unsetEntry : SyncHistoryEntry :=
  { id := "", timestamp := 0, deviceID := "dev", direction := "push",
    changesApplied := 0, conflictsFound := 0, success := true, error := "",
    changes := [], duration := 0 }

/-- An entry newer than oldDroppedEntry, already retained in the ledger. -/
def newKeptEntry : SyncHistoryEntry := { sampleEntry1 with id := "kept", timestamp := 10 }

/-- An entry older than newKeptEntry, added afterwards. -/
def oldDroppedEntry : SyncHistoryEntry := { sampleEntry1 with id := "dropped", timestamp := 5 }

/-- The value a change writes for its own name: the record for Create/Update,
absence for Delete. -/
def changeValue (c : KeyChange) : Option Key :=
  match c.type with
  | ChangeType.delete => none
  | ChangeType.create => some c.key
  | ChangeType.update => some c.key

/-- The last change of the list that targets the given name, if any. -/
def lastChange (changes : List KeyChange) (n : String) : Option KeyChange :=
  changes.reverse.find? (fun c => c.key.name == n)

/-- A Delete change for a name that appears in no working set used by the C3
witness. -/
def ghostDeleteChange : KeyChange :=
  { type := ChangeType.delete, key := { zeroKey with name := "ghost" },
    timestamp := 0, deviceID := "dev", checksum := none }

/-- The first loop of DetectChanges re-expressed per local key: when the
local checksum mapping is the one UpdateLocalState builds from localKeys and
the local names are distinct, applying localPass to the mapping entry of a
key is the same as applying this function to the key itself. -/
def localChangeFor (deviceID : String) (now : Time)
    (remoteChecks : List (String × Checksum)) (k : Key) : Option KeyChange :=
  match checksGet remoteChecks k.name with
  | none =>
      some { type := ChangeType.create, key := k, timestamp := now,
             deviceID := deviceID, checksum := some (ComputeChecksum k) }
  | some rc =>
      if ComputeChecksum k ≠ rc then
        some { type := ChangeType.update, key := k, timestamp := now,
               deviceID := deviceID, checksum := some (ComputeChecksum k) }
      else none

/-- The property claimed of change detection, stated of an arbitrary output
list: exactly one Create with the full local record per name present only
locally, exactly one Update with the full local record per name present on
both sides with differing checksums, no event for a name with equal
checksums, exactly one Delete (name-only payload) per name present only
remotely, all Deletes after all Creates and Updates, and empty mappings
produce an empty list. -/
def ChangesSpecOf (deviceID : String) (now : Time) (localKeys : List Key)
    (remoteChecks : List (String × Checksum)) (changes : List KeyChange) : Prop :=
  (∀ k ∈ localKeys, checksGet remoteChecks k.name = none →
    changes.countP (fun c => c.key.name == k.name) = 1 ∧
    ({ type := ChangeType.create, key := k, timestamp := now,
       deviceID := deviceID, checksum := some (ComputeChecksum k) } : KeyChange) ∈ changes) ∧
  (∀ k ∈ localKeys, ∀ rc, checksGet remoteChecks k.name = some rc →
    ComputeChecksum k ≠ rc →
    changes.countP (fun c => c.key.name == k.name) = 1 ∧
    ({ type := ChangeType.update, key := k, timestamp := now,
       deviceID := deviceID, checksum := some (ComputeChecksum k) } : KeyChange) ∈ changes) ∧
  (∀ k ∈ localKeys, ∀ rc, checksGet remoteChecks k.name = some rc →
    ComputeChecksum k = rc →
    changes.countP (fun c => c.key.name == k.name) = 0) ∧
  (∀ p ∈ remoteChecks, (∀ k ∈ localKeys, k.name ≠ p.1) →
    changes.countP (fun c => c.key.name == p.1) = 1 ∧
    ({ type := ChangeType.delete, key := { zeroKey with name := p.1 },
       timestamp := now, deviceID := deviceID, checksum := none } : KeyChange) ∈ changes) ∧
  (∃ cu del, changes = cu ++ del ∧
    (∀ c ∈ cu, c.type ≠ ChangeType.delete) ∧
    (∀ c ∈ del, c.type = ChangeType.delete)) ∧
  (localKeys = [] → remoteChecks = [] → changes = [])

/-- The change-detection claim for a local record set (whose local checksum
mapping is the one UpdateLocalState builds from it) and a remote checksum
mapping. -/
def DetectChangesSpec (deviceID : String) (now : Time) (localKeys : List Key)
    (remoteChecks : List (String × Checksum)) : Prop :=
  ChangesSpecOf deviceID now localKeys remoteChecks
    (DetectChanges deviceID now localKeys (UpdateLocalState localKeys) remoteChecks)

/-- The property claimed of conflict detection, stated of an arbitrary output
list: exactly one ConflictResolution — carrying both full records, the
configured strategy and a zero ResolvedKey — per name present in both record
sets whose recomputed checksums differ, and none for names with equal
checksums or present on only one side. -/
def ConflictsSpecOf (strategy : SyncStrategy) (localKeys remoteKeys : List Key)
    (conflicts : List ConflictResolution) : Prop :=
  (∀ lk ∈ localKeys, ∀ rk, mapGet remoteKeys lk.name = some rk →
    ComputeChecksum lk ≠ ComputeChecksum rk →
    conflicts.countP (fun c => c.keyName == lk.name) = 1 ∧
    ({ keyName := lk.name, localKey := lk, remoteKey := rk,
       strategy := strategy, resolvedKey := zeroKey } : ConflictResolution) ∈ conflicts) ∧
  (∀ lk ∈ localKeys, ∀ rk, mapGet remoteKeys lk.name = some rk →
    ComputeChecksum lk = ComputeChecksum rk →
    conflicts.countP (fun c => c.keyName == lk.name) = 0) ∧
  (∀ lk ∈ localKeys, mapGet remoteKeys lk.name = none →
    conflicts.countP (fun c => c.keyName == lk.name) = 0) ∧
  (∀ n : String, (∀ lk ∈ localKeys, lk.name ≠ n) →
    conflicts.countP (fun c => c.keyName == n) = 0) ∧
  (∀ c ∈ conflicts, c.strategy = strategy ∧ c.resolvedKey = zeroKey)

/-- The conflict-detection claim for two full record sets. -/
def DetectConflictsSpec (strategy : SyncStrategy) (localKeys remoteKeys : List Key) : Prop :=
  ConflictsSpecOf strategy localKeys remoteKeys
    (DetectConflicts strategy localKeys remoteKeys)

/-- A local key present on no remote, used by the C2 witness. -/
def workKey : Key := { zeroKey with name := "work" }

/-- A remote checksum mapping holding one name absent locally, used by the
C2 witness. -/
def staleRemoteChecks : List (String × Checksum) :=
  [("old", ComputeChecksum { zeroKey with name := "old" })]

/-! Claim C4: checksum determinism and volatile-field independence. -/

/-- C4: two keys produce the same checksum exactly when they agree on the
seven qualifying fields Name, Type, Fingerprint, Path, Comment, Tags and
CreatedAt; in particular changing any volatile field (Installed, UpdatedAt,
PubPath, RSABits, HasPassphrase and the rotation-tracking fields) never
changes the checksum, and any change to a qualifying field does. -/
theorem computeChecksum_qualifying_fields :
    (∀ a b : Key, ComputeChecksum a = ComputeChecksum b ↔
      (a.name = b.name ∧ a.type = b.type ∧ a.fingerprint = b.fingerprint ∧
       a.path = b.path ∧ a.comment = b.comment ∧ a.tags = b.tags ∧
       a.createdAt = b.createdAt)) ∧
    (∀ (k : Key) (inst : Bool) (upd : Time) (pp : String) (bits : Int)
       (hp : Bool) (lra rda : Option Time) (rf : String),
      ComputeChecksum
        { k with installed := inst, updatedAt := upd, pubPath := pp,
                 rsaBits := bits, hasPassphrase := hp, lastRotatedAt := lra,
                 rotationDueAt := rda, rotatedFrom := rf } = ComputeChecksum k) := by
  constructor
  · intro a b
    simp only [ComputeChecksum, ChecksumData.mk.injEq]
  · intro k inst upd pp bits hp lra rda rf
    rfl

/-! Claim C1 (corrected): NewerWins resolution. -/

/-- C1 counterexample: under NewerWins with exactly equal UpdatedAt
timestamps, ResolveConflict returns the remote record, not the local one as
the claim states. -/
theorem newerWins_tie_returns_remote :
    tieConflict.localKey.updatedAt = tieConflict.remoteKey.updatedAt ∧
    (ResolveConflict tieConflict).2 = tieConflict.remoteKey ∧
    (ResolveConflict tieConflict).2 ≠ tieConflict.localKey := by decide

/-- C1 amended: under the NewerWins strategy, ResolveConflict returns (and
writes into ResolvedKey) the local record when its UpdatedAt is strictly
later than the remote one, and otherwise — including when the two timestamps
are exactly equal — the remote record (tie-break toward remote). -/
theorem newerWins_resolution (c : ConflictResolution)
    (h : c.strategy = StrategyNewerWins) :
    (ResolveConflict c).2 =
      (if c.remoteKey.updatedAt < c.localKey.updatedAt then c.localKey
       else c.remoteKey) ∧
    (ResolveConflict c).1 =
      { c with resolvedKey :=
          if c.remoteKey.updatedAt < c.localKey.updatedAt then c.localKey
          else c.remoteKey } := by
  unfold ResolveConflict
  rw [h]
  simp only [StrategyNewerWins, StrategyLocalWins, StrategyRemoteWins]
  by_cases hlt : c.remoteKey.updatedAt < c.localKey.updatedAt <;> simp [hlt]

/-- C1 witness: the amended theorem applied to the concrete tied conflict. -/
theorem newerWins_resolution_witness :
    (ResolveConflict tieConflict).2 =
      (if tieConflict.remoteKey.updatedAt < tieConflict.localKey.updatedAt
       then tieConflict.localKey else tieConflict.remoteKey) ∧
    (ResolveConflict tieConflict).1 =
      { tieConflict with resolvedKey :=
          if tieConflict.remoteKey.updatedAt < tieConflict.localKey.updatedAt
          then tieConflict.localKey else tieConflict.remoteKey } :=
  newerWins_resolution tieConflict rfl

/-! Claim C10: unknown strategies resolve to nothing. -/

/-- C10: a ConflictResolution whose strategy is none of the four enumerated
values is returned untouched by ResolveConflict, so with ResolvedKey at its
zero value (as DetectConflicts produces it) the function silently returns
the zero key — neither the local nor the remote record. -/
theorem resolveConflict_unknown_strategy (c : ConflictResolution)
    (h1 : c.strategy ≠ StrategyLocalWins) (h2 : c.strategy ≠ StrategyRemoteWins)
    (h3 : c.strategy ≠ StrategyNewerWins) (h4 : c.strategy ≠ StrategyManual)
    (h5 : c.resolvedKey = zeroKey) :
    (ResolveConflict c).1 = c ∧ (ResolveConflict c).2 = zeroKey := by
  unfold ResolveConflict
  simp [h1, h2, h3, h4, h5]

/-- C10 witness: the unknown-strategy theorem at a concrete conflict whose
strategy string is "bogus". -/
theorem resolveConflict_unknown_strategy_witness :
    (ResolveConflict unknownConflict).1 = unknownConflict ∧
    (ResolveConflict unknownConflict).2 = zeroKey :=
  resolveConflict_unknown_strategy unknownConflict (by decide) (by decide)
    (by decide) (by decide) rfl

/-! Claim C5 (code bug): GetRecent on non-positive n. -/

/-- C5: the specification promises that GetRecent with n at most 0 returns an
empty list, but a negative n survives the upper cap and reaches the Go slice
expression entries[:n], which panics (modelled as none); n equal to 0 does
return the empty list. -/
theorem getRecent_negative_panics :
    GetRecent { entries := [], maxEntries := 10 } (-1) = none ∧
    GetRecent { entries := [sampleEntry1, sampleEntry2], maxEntries := 10 } (-1) = none ∧
    GetRecent { entries := [sampleEntry1, sampleEntry2], maxEntries := 10 } 0 = some [] := by
  decide

/-! Helper lemmas about the sync-history ledger. -/

lemma sortEntries_perm (l : List SyncHistoryEntry) : (sortEntries l).Perm l :=
  List.perm_insertionSort entryIsNewer l

lemma sortEntries_sorted (l : List SyncHistoryEntry) :
    List.Sorted entryIsNewer (sortEntries l) :=
  List.sorted_insertionSort entryIsNewer l

lemma sortEntries_length (l : List SyncHistoryEntry) :
    (sortEntries l).length = l.length :=
  (sortEntries_perm l).length_eq

lemma save_writeFail_state (h : SyncHistory) :
    (Save h SaveMode.writeFail).1 = (Save h SaveMode.ok).1 := rfl

lemma save_ok_entries (h : SyncHistory) :
    ((Save h SaveMode.ok).1).entries =
      (if h.maxEntries < (sortEntries h.entries).length
       then (sortEntries h.entries).take h.maxEntries
       else sortEntries h.entries) := rfl

lemma save_entries_sorted (h : SyncHistory) :
    List.Sorted entryIsNewer ((Save h SaveMode.ok).1).entries := by
  rw [save_ok_entries]
  split
  · exact List.Pairwise.sublist (List.take_sublist _ _) (sortEntries_sorted _)
  · exact sortEntries_sorted _

lemma save_entries_length (h : SyncHistory) :
    ((Save h SaveMode.ok).1).entries.length = min h.maxEntries h.entries.length := by
  rw [save_ok_entries]
  split
  · rw [List.length_take, sortEntries_length]
  · rename_i h1
    rw [sortEntries_length] at h1 ⊢
    omega

lemma save_entries_prefix (h : SyncHistory) :
    ∃ t, sortEntries h.entries = ((Save h SaveMode.ok).1).entries ++ t := by
  rw [save_ok_entries]
  split
  · exact ⟨(sortEntries h.entries).drop h.maxEntries, (List.take_append_drop _ _).symm⟩
  · exact ⟨[], by simp⟩

lemma save_no_truncate (h : SyncHistory) (hle : h.entries.length ≤ h.maxEntries) :
    ((Save h SaveMode.ok).1).entries = sortEntries h.entries := by
  rw [save_ok_entries, if_neg]
  rw [sortEntries_length]
  omega

lemma mem_save_entries {h : SyncHistory} {x : SyncHistoryEntry} {mode : SaveMode}
    (hx : x ∈ ((Save h mode).1).entries) : x ∈ h.entries := by
  cases mode with
  | mkdirFail => exact hx
  | ok =>
      rw [save_ok_entries] at hx
      refine (sortEntries_perm h.entries).mem_iff.mp ?_
      split at hx
      · exact (List.take_sublist _ _).subset hx
      · exact hx
  | writeFail =>
      rw [save_writeFail_state, save_ok_entries] at hx
      refine (sortEntries_perm h.entries).mem_iff.mp ?_
      split at hx
      · exact (List.take_sublist _ _).subset hx
      · exact hx

lemma add_entries_cases (h : SyncHistory) (e : SyncHistoryEntry) (mode : SaveMode) :
    ∀ x ∈ ((Add h e mode).1).entries, x ∈ h.entries ∨ x = e := by
  intro x hx
  have hx2 : x ∈ h.entries ++ [e] := mem_save_entries hx
  simpa using List.mem_append.mp hx2

lemma add_mem_of_room (h : SyncHistory) (e : SyncHistoryEntry) (mode : SaveMode)
    (hroom : h.entries.length < h.maxEntries) :
    e ∈ ((Add h e mode).1).entries := by
  have happ : ({ h with entries := h.entries ++ [e] } : SyncHistory).entries.length ≤
      ({ h with entries := h.entries ++ [e] } : SyncHistory).maxEntries := by
    simp only [List.length_append, List.length_singleton]
    omega
  cases mode with
  | mkdirFail => simp [Add, Save]
  | ok =>
      show e ∈ ((Save { h with entries := h.entries ++ [e] } SaveMode.ok).1).entries
      rw [save_no_truncate _ happ]
      exact (sortEntries_perm _).mem_iff.mpr (by simp)
  | writeFail =>
      show e ∈ ((Save { h with entries := h.entries ++ [e] } SaveMode.writeFail).1).entries
      rw [save_writeFail_state, save_no_truncate _ happ]
      exact (sortEntries_perm _).mem_iff.mpr (by simp)

lemma save_ok_maxEntries (h : SyncHistory) :
    ((Save h SaveMode.ok).1).maxEntries = h.maxEntries := rfl

lemma save_state_idem (h : SyncHistory) :
    (Save (Save h SaveMode.ok).1 SaveMode.ok).1 = (Save h SaveMode.ok).1 := by
  have hs : sortEntries ((Save h SaveMode.ok).1).entries = ((Save h SaveMode.ok).1).entries :=
    List.Sorted.insertionSort_eq (save_entries_sorted h)
  have hl : ((Save h SaveMode.ok).1).entries.length ≤ ((Save h SaveMode.ok).1).maxEntries := by
    rw [save_entries_length, save_ok_maxEntries]
    omega
  have hent : ((Save (Save h SaveMode.ok).1 SaveMode.ok).1).entries =
      ((Save h SaveMode.ok).1).entries := by
    rw [save_no_truncate _ hl, hs]
  have hstate : (Save (Save h SaveMode.ok).1 SaveMode.ok).1 =
      { (Save h SaveMode.ok).1 with
          entries := ((Save (Save h SaveMode.ok).1 SaveMode.ok).1).entries } := rfl
  rw [hstate, hent]

/-! Claim C9: sorting and truncation on save. -/

/-- C9: with the retained-entry maximum configured to 2, adding three entries
with strictly increasing timestamps retains exactly the two newest, and
GetRecent 10 returns them newest first; in general every save leaves the
in-memory entries sorted descending by timestamp, of length the minimum of
the configured maximum and the previous length, and equal to a prefix of the
full newest-first ordering of the previous entries (so the oldest entries
are dropped first). -/
theorem save_truncation :
    (GetRecent ((Add ((Add ((Add { entries := [], maxEntries := 2 }
        sampleEntry1 SaveMode.ok).1) sampleEntry2 SaveMode.ok).1)
        sampleEntry3 SaveMode.ok).1) 10 = some [sampleEntry3, sampleEntry2]) ∧
    (∀ h : SyncHistory,
      List.Sorted entryIsNewer ((Save h SaveMode.ok).1).entries ∧
      ((Save h SaveMode.ok).1).entries.length = min h.maxEntries h.entries.length ∧
      (∃ t, sortEntries h.entries = ((Save h SaveMode.ok).1).entries ++ t) ∧
      (sortEntries h.entries).Perm h.entries) :=
  ⟨by decide, fun h =>
    ⟨save_entries_sorted h, save_entries_length h, save_entries_prefix h,
     sortEntries_perm h.entries⟩⟩

/-! Claim C6 (corrected): Add does not assign timestamp or id. -/

/-- C6 counterexample: adding an entry whose Timestamp and ID are unset
persists it verbatim — the stored entry still has timestamp zero and an
empty id, so Add assigned neither. -/
theorem add_leaves_unset_fields :
    ((Add { entries := [], maxEntries := 5 } unsetEntry SaveMode.ok).1).entries =
      [unsetEntry] ∧
    (Add { entries := [], maxEntries := 5 } unsetEntry SaveMode.ok).2 = true ∧
    unsetEntry.timestamp = 0 ∧ unsetEntry.id = "" := by decide

/-- C6 amended: Add appends the entry to the in-memory list exactly as given
and persists; it assigns neither a timestamp nor an id.  Every entry of the
resulting list is a pre-existing entry or the added entry itself, unmodified,
and when the ledger held fewer than maxEntries entries the added entry is
present after the save. -/
theorem add_appends_entry_verbatim (h : SyncHistory) (e : SyncHistoryEntry)
    (mode : SaveMode) :
    (∀ x ∈ ((Add h e mode).1).entries, x ∈ h.entries ∨ x = e) ∧
    (h.entries.length < h.maxEntries → e ∈ ((Add h e mode).1).entries) :=
  ⟨add_entries_cases h e mode, fun hroom => add_mem_of_room h e mode hroom⟩

/-- C6 witness: the amended theorem at a concrete empty ledger and an entry
with unset id and timestamp. -/
theorem add_appends_entry_verbatim_witness :
    (∀ x ∈ ((Add { entries := [], maxEntries := 5 } unsetEntry SaveMode.ok).1).entries,
        x ∈ ({ entries := [], maxEntries := 5 } : SyncHistory).entries ∨ x = unsetEntry) ∧
    unsetEntry ∈ ((Add { entries := [], maxEntries := 5 } unsetEntry SaveMode.ok).1).entries :=
  ⟨(add_appends_entry_verbatim { entries := [], maxEntries := 5 } unsetEntry SaveMode.ok).1,
   (add_appends_entry_verbatim { entries := [], maxEntries := 5 } unsetEntry SaveMode.ok).2
     (by decide)⟩

/-! Claim C7 (corrected): in-memory state after a failed Add. -/

/-- C7 counterexample: with one retained entry allowed and a newer entry
already present, adding an older entry while the file write fails returns a
persistence error, yet the appended entry has already been truncated out of
the in-memory list. -/
theorem add_failed_save_drops_old_entry :
    (Add { entries := [newKeptEntry], maxEntries := 1 } oldDroppedEntry
        SaveMode.writeFail).2 = false ∧
    oldDroppedEntry ∉
      ((Add { entries := [newKeptEntry], maxEntries := 1 } oldDroppedEntry
          SaveMode.writeFail).1).entries := by decide

/-- C7 amended: a failed Add reports the error; the appended entry is still
present in memory whenever the ledger held fewer than maxEntries entries
(it can be truncated away otherwise); and in every failure mode retrying the
save on the failed state produces exactly the in-memory entries a successful
Add would have produced, so the logical event need not be re-submitted. -/
theorem add_failed_save_state (h : SyncHistory) (e : SyncHistoryEntry)
    (mode : SaveMode) (hm : mode ≠ SaveMode.ok) :
    (Add h e mode).2 = false ∧
    (h.entries.length < h.maxEntries → e ∈ ((Add h e mode).1).entries) ∧
    ((Save ((Add h e mode).1) SaveMode.ok).1).entries =
      ((Add h e SaveMode.ok).1).entries := by
  cases mode with
  | ok => exact absurd rfl hm
  | mkdirFail =>
      exact ⟨rfl, fun hroom => add_mem_of_room h e _ hroom, rfl⟩
  | writeFail =>
      refine ⟨rfl, fun hroom => add_mem_of_room h e _ hroom, ?_⟩
      have h1 : (Add h e SaveMode.writeFail).1 =
          (Save { h with entries := h.entries ++ [e] } SaveMode.ok).1 := rfl
      rw [h1, congrArg SyncHistory.entries
        (save_state_idem { h with entries := h.entries ++ [e] })]
      rfl

/-- C7 witness: the amended theorem at a concrete two-slot ledger holding one
entry, with the write failing. -/
theorem add_failed_save_state_witness :
    (Add { entries := [newKeptEntry], maxEntries := 2 } oldDroppedEntry
        SaveMode.writeFail).2 = false ∧
    oldDroppedEntry ∈
      ((Add { entries := [newKeptEntry], maxEntries := 2 } oldDroppedEntry
          SaveMode.writeFail).1).entries ∧
    ((Save ((Add { entries := [newKeptEntry], maxEntries := 2 } oldDroppedEntry
        SaveMode.writeFail).1) SaveMode.ok).1).entries =
      ((Add { entries := [newKeptEntry], maxEntries := 2 } oldDroppedEntry
          SaveMode.ok).1).entries :=
  ⟨(add_failed_save_state { entries := [newKeptEntry], maxEntries := 2 }
      oldDroppedEntry SaveMode.writeFail (by decide)).1,
   (add_failed_save_state { entries := [newKeptEntry], maxEntries := 2 }
      oldDroppedEntry SaveMode.writeFail (by decide)).2.1 (by decide),
   (add_failed_save_state { entries := [newKeptEntry], maxEntries := 2 }
      oldDroppedEntry SaveMode.writeFail (by decide)).2.2⟩

/-! Helper lemmas about change application. -/

lemma applyOne_name (m : KeyMap) (c : KeyChange) (n : String) :
    applyOne m c n = if n = c.key.name then changeValue c else m n := by
  obtain ⟨t, k, ts, d, cs⟩ := c
  cases t <;> rfl

lemma ApplyChanges_char (changes : List KeyChange) : ∀ (m : KeyMap) (n : String),
    ApplyChanges m changes n =
      (match lastChange changes n with
       | none => m n
       | some c => changeValue c) := by
  induction changes with
  | nil => intro m n; rfl
  | cons c t ih =>
      intro m n
      have h1 : ApplyChanges m (c :: t) n = ApplyChanges (applyOne m c) t n := rfl
      rw [h1, ih]
      have h2 : lastChange (c :: t) n =
          (lastChange t n).or (if c.key.name == n then some c else none) := by
        unfold lastChange
        rw [List.reverse_cons, List.find?_append]
        congr 1
        by_cases hcc : c.key.name = n
        · simp [List.find?, hcc]
        · have hb : (c.key.name == n) = false := beq_eq_false_iff_ne.mpr hcc
          simp [List.find?, hb, hcc]
      rw [h2]
      cases hf : lastChange t n with
      | some c1 => rfl
      | none =>
          rw [applyOne_name]
          by_cases hc : c.key.name = n
          · simp [hc]
          · have hcn : n ≠ c.key.name := fun h => hc h.symm
            simp [hc, hcn]

lemma applyChanges_idem_pointwise (m : KeyMap) (changes : List KeyChange) (n : String) :
    ApplyChanges (ApplyChanges m changes) changes n = ApplyChanges m changes n := by
  rw [ApplyChanges_char changes (ApplyChanges m changes) n]
  cases hf : lastChange changes n with
  | none => rfl
  | some c => rw [ApplyChanges_char changes m n, hf]

lemma applyChanges_congr {m1 m2 : KeyMap} (hm : ∀ n, m1 n = m2 n)
    (changes : List KeyChange) (n : String) :
    ApplyChanges m1 changes n = ApplyChanges m2 changes n := by
  rw [ApplyChanges_char, ApplyChanges_char]
  cases lastChange changes n <;> simp [hm]

lemma delete_absent_noop (m : KeyMap) (c : KeyChange)
    (hdel : c.type = ChangeType.delete) (habs : m c.key.name = none) (n : String) :
    applyOne m c n = m n := by
  rw [applyOne_name]
  by_cases h : n = c.key.name
  · subst h
    rw [if_pos rfl, habs]
    simp [changeValue, hdel]
  · rw [if_neg h]

/-! Claim C3: idempotence of change application. -/

/-- C3: applying a change list twice yields the same name-keyed record set as
applying it once — both directly on the working map and through the record
set returned by a previous ApplyChanges call — and a Delete change for a name
absent from the working set is a no-op rather than an error. -/
theorem applyChanges_idempotent :
    (∀ (m : KeyMap) (changes : List KeyChange) (n : String),
      ApplyChanges (ApplyChanges m changes) changes n = ApplyChanges m changes n) ∧
    (∀ (keys : List Key) (changes : List KeyChange) (result : List Key),
      (∀ n, toKeyMap result n = ApplyChanges (toKeyMap keys) changes n) →
      ∀ n, ApplyChanges (toKeyMap result) changes n =
        ApplyChanges (toKeyMap keys) changes n) ∧
    (∀ (m : KeyMap) (c : KeyChange), c.type = ChangeType.delete →
      m c.key.name = none → ∀ n, applyOne m c n = m n) := by
  refine ⟨applyChanges_idem_pointwise, ?_, delete_absent_noop⟩
  intro keys changes result hres n
  calc ApplyChanges (toKeyMap result) changes n
      = ApplyChanges (ApplyChanges (toKeyMap keys) changes) changes n :=
        applyChanges_congr hres changes n
    _ = ApplyChanges (toKeyMap keys) changes n :=
        applyChanges_idem_pointwise (toKeyMap keys) changes n

/-- C3 witness: the idempotence theorem at a concrete empty working set with
a single Delete change, its hypotheses discharged concretely. -/
theorem applyChanges_idempotent_witness :
    ApplyChanges (ApplyChanges (toKeyMap []) [ghostDeleteChange]) [ghostDeleteChange] "x" =
      ApplyChanges (toKeyMap []) [ghostDeleteChange] "x" ∧
    ApplyChanges (toKeyMap ([] : List Key)) [] "x" =
      ApplyChanges (toKeyMap ([] : List Key)) [] "x" ∧
    applyOne (toKeyMap []) ghostDeleteChange "ghost" = toKeyMap [] "ghost" :=
  ⟨applyChanges_idempotent.1 (toKeyMap []) [ghostDeleteChange] "x",
   applyChanges_idempotent.2.1 [] [] [] (fun _ => rfl) "x",
   applyChanges_idempotent.2.2 (toKeyMap []) ghostDeleteChange rfl rfl "ghost"⟩

/-! Generic helper lemmas about counting and association-list lookup. -/

lemma countP_eq_one_of_unique {α β : Type} (f : α → β) (l : List α)
    (hnd : (l.map f).Nodup) (a : α) (ha : a ∈ l) (p : α → Bool)
    (hpa : p a = true) (hother : ∀ x ∈ l, p x = true → f x = f a) :
    l.countP p = 1 := by
  induction l with
  | nil => cases ha
  | cons b t ih =>
      rw [List.map_cons, List.nodup_cons] at hnd
      obtain ⟨hb, ht⟩ := hnd
      rw [List.countP_cons]
      by_cases hpb : p b = true
      · have hfb : f b = f a := hother b (List.mem_cons_self b t) hpb
        have ht0 : t.countP p = 0 := by
          rw [List.countP_eq_zero]
          intro x hx hpx
          refine hb ?_
          rw [hfb, ← hother x (List.mem_cons_of_mem b hx) hpx]
          exact List.mem_map_of_mem f hx
        rw [ht0, if_pos hpb]
      · have hab : a ∈ t := by
          rcases List.mem_cons.mp ha with h | h
          · exact absurd (h ▸ hpa) hpb
          · exact h
        rw [if_neg hpb, Nat.add_zero]
        exact ih ht hab (fun x hx hpx => hother x (List.mem_cons_of_mem b hx) hpx)

lemma find?_by_proj {α : Type} (f : α → String) (l : List α)
    (hnd : (l.map f).Nodup) (a : α) (ha : a ∈ l) :
    l.find? (fun x => f x == f a) = some a := by
  induction l with
  | nil => cases ha
  | cons b t ih =>
      rw [List.map_cons, List.nodup_cons] at hnd
      obtain ⟨hb, ht⟩ := hnd
      rcases List.mem_cons.mp ha with rfl | hat
      · exact List.find?_cons_of_pos t (by simp)
      · have hne : f b ≠ f a := fun he => hb (he ▸ List.mem_map_of_mem f hat)
        rw [List.find?_cons_of_neg t (by simp [hne])]
        exact ih ht hat

lemma mapGet_self {keys : List Key} (hnd : (keys.map Key.name).Nodup) {k : Key}
    (hk : k ∈ keys) : mapGet keys k.name = some k := by
  unfold mapGet
  have hnd1 : (keys.reverse.map Key.name).Nodup := by
    rw [List.map_reverse, List.nodup_reverse]; exact hnd
  exact find?_by_proj Key.name keys.reverse hnd1 k (List.mem_reverse.mpr hk)

lemma mapGet_eq_none_iff (keys : List Key) (n : String) :
    mapGet keys n = none ↔ ∀ k ∈ keys, k.name ≠ n := by
  unfold mapGet
  rw [List.find?_eq_none]
  constructor
  · intro h k hk
    have := h k (List.mem_reverse.mpr hk)
    simpa using this
  · intro h k hk
    simpa using h k (List.mem_reverse.mp hk)

lemma checksGet_pair {m : List (String × Checksum)} (hnd : (m.map Prod.fst).Nodup)
    {p : String × Checksum} (hp : p ∈ m) : checksGet m p.1 = some p.2 := by
  unfold checksGet
  have hnd1 : (m.reverse.map Prod.fst).Nodup := by
    rw [List.map_reverse, List.nodup_reverse]; exact hnd
  rw [find?_by_proj Prod.fst m.reverse hnd1 p (List.mem_reverse.mpr hp)]
  rfl

lemma checksGet_eq_none_iff (m : List (String × Checksum)) (n : String) :
    checksGet m n = none ↔ ∀ p ∈ m, p.1 ≠ n := by
  unfold checksGet
  rw [Option.map_eq_none', List.find?_eq_none]
  constructor
  · intro h p hp
    have := h p (List.mem_reverse.mpr hp)
    simpa using this
  · intro h p hp
    simpa using h p (List.mem_reverse.mp hp)

lemma ulS_fst (keys : List Key) :
    (UpdateLocalState keys).map Prod.fst = keys.map Key.name := by
  unfold UpdateLocalState
  rw [List.map_map]
  rfl

lemma checksGet_ulS {keys : List Key} (hnd : (keys.map Key.name).Nodup) {k : Key}
    (hk : k ∈ keys) :
    checksGet (UpdateLocalState keys) k.name = some (ComputeChecksum k) := by
  have hp : (k.name, ComputeChecksum k) ∈ UpdateLocalState keys :=
    List.mem_map_of_mem (fun x => (x.name, ComputeChecksum x)) hk
  have hnd1 : ((UpdateLocalState keys).map Prod.fst).Nodup := by
    rw [ulS_fst]; exact hnd
  exact checksGet_pair hnd1 hp

lemma checksGet_ulS_none_iff (keys : List Key) (n : String) :
    checksGet (UpdateLocalState keys) n = none ↔ ∀ k ∈ keys, k.name ≠ n := by
  rw [checksGet_eq_none_iff]
  constructor
  · intro h k hk
    exact h (k.name, ComputeChecksum k)
      (List.mem_map_of_mem (fun k => (k.name, ComputeChecksum k)) hk)
  · intro h p hp
    obtain ⟨k, hk, rfl⟩ := List.mem_map.mp hp
    exact h k hk

/-! Shape lemmas for the change and conflict detectors. -/

lemma localPass_eq_localChangeFor {deviceID : String} {now : Time}
    {localKeys : List Key} {remoteChecks : List (String × Checksum)}
    (hnd : (localKeys.map Key.name).Nodup) :
    (UpdateLocalState localKeys).filterMap
        (localPass deviceID now localKeys remoteChecks) =
      localKeys.filterMap (localChangeFor deviceID now remoteChecks) := by
  unfold UpdateLocalState
  rw [List.filterMap_map]
  refine List.filterMap_congr ?_
  intro k hk
  show localPass deviceID now localKeys remoteChecks (k.name, ComputeChecksum k) =
    localChangeFor deviceID now remoteChecks k
  unfold localPass localChangeFor
  rw [show ((k.name, ComputeChecksum k) : String × Checksum).1 = k.name from rfl,
      show ((k.name, ComputeChecksum k) : String × Checksum).2 = ComputeChecksum k from rfl,
      mapGet_self hnd hk]
  cases checksGet remoteChecks k.name <;> simp

lemma localChangeFor_shape {deviceID : String} {now : Time}
    {remoteChecks : List (String × Checksum)} {k : Key} {c : KeyChange}
    (h : localChangeFor deviceID now remoteChecks k = some c) :
    c.key = k ∧ c.key.name = k.name ∧ c.type ≠ ChangeType.delete := by
  unfold localChangeFor at h
  cases hcg : checksGet remoteChecks k.name with
  | none =>
      rw [hcg] at h
      injection h with h1
      subst h1
      exact ⟨rfl, rfl, fun hx => ChangeType.noConfusion hx⟩
  | some rc =>
      have h2 : (if ComputeChecksum k ≠ rc then
          some ({ type := ChangeType.update, key := k, timestamp := now,
                  deviceID := deviceID, checksum := some (ComputeChecksum k) } : KeyChange)
        else none) = some c := by rw [hcg] at h; exact h
      by_cases hne : ComputeChecksum k ≠ rc
      · rw [if_pos hne] at h2
        injection h2 with h1
        subst h1
        exact ⟨rfl, rfl, fun hx => ChangeType.noConfusion hx⟩
      · rw [if_neg hne] at h2
        exact Option.noConfusion h2

lemma remotePass_shape {deviceID : String} {now : Time}
    {localChecks : List (String × Checksum)} {p : String × Checksum}
    {c : KeyChange}
    (h : remotePass deviceID now localChecks p = some c) :
    checksGet localChecks p.1 = none ∧
    c = { type := ChangeType.delete, key := { zeroKey with name := p.1 },
          timestamp := now, deviceID := deviceID, checksum := none } := by
  unfold remotePass at h
  cases hcg : checksGet localChecks p.1 with
  | some _ => rw [hcg] at h; exact Option.noConfusion h
  | none => exact ⟨rfl, by rw [hcg] at h; exact (Option.some.inj h).symm⟩

lemma conflictFor_shape {strategy : SyncStrategy} {remoteKeys : List Key}
    {lk : Key} {c : ConflictResolution}
    (h : conflictFor strategy remoteKeys lk = some c) :
    ∃ rk, mapGet remoteKeys lk.name = some rk ∧
      ComputeChecksum lk ≠ ComputeChecksum rk ∧
      c = { keyName := lk.name, localKey := lk, remoteKey := rk,
            strategy := strategy, resolvedKey := zeroKey } := by
  unfold conflictFor at h
  cases hm : mapGet remoteKeys lk.name with
  | none => rw [hm] at h; exact Option.noConfusion h
  | some rk =>
      have h2 : (if ComputeChecksum lk ≠ ComputeChecksum rk then
          some ({ keyName := lk.name, localKey := lk, remoteKey := rk,
                  strategy := strategy, resolvedKey := zeroKey } : ConflictResolution)
        else none) = some c := by rw [hm] at h; exact h
      by_cases hne : ComputeChecksum lk ≠ ComputeChecksum rk
      · rw [if_pos hne] at h2
        exact ⟨rk, rfl, hne, (Option.some.inj h2).symm⟩
      · rw [if_neg hne] at h2
        exact Option.noConfusion h2

/-! Claim C2: change detection. -/

/-- C2: for every local record set with distinct names (providing the local
checksum mapping UpdateLocalState builds) and every remote checksum mapping
with distinct names, DetectChanges emits exactly one Create with the full
local record per name present only locally, exactly one Update with the full
local record per name with differing checksums, no event per name with equal
checksums, exactly one Delete (name-only payload) per name present only
remotely, all Deletes after all Creates and Updates, and empty mappings
yield an empty list. -/
theorem detectChanges_correct (deviceID : String) (now : Time)
    (localKeys : List Key) (remoteChecks : List (String × Checksum))
    (hl : (localKeys.map Key.name).Nodup)
    (hr : (remoteChecks.map Prod.fst).Nodup) :
    DetectChangesSpec deviceID now localKeys remoteChecks := by
  unfold DetectChangesSpec
  have hsplit : DetectChanges deviceID now localKeys (UpdateLocalState localKeys)
      remoteChecks =
      localKeys.filterMap (localChangeFor deviceID now remoteChecks)
      ++ remoteChecks.filterMap (remotePass deviceID now (UpdateLocalState localKeys)) := by
    unfold DetectChanges
    rw [localPass_eq_localChangeFor hl]
  rw [hsplit]
  unfold ChangesSpecOf
  set A := localKeys.filterMap (localChangeFor deviceID now remoteChecks) with hA
  set B := remoteChecks.filterMap (remotePass deviceID now (UpdateLocalState localKeys))
    with hB
  have hB0 : ∀ k ∈ localKeys, B.countP (fun c => c.key.name == k.name) = 0 := by
    intro k hk
    rw [List.countP_eq_zero]
    intro c hc hp
    obtain ⟨p, hpm, hps⟩ := List.mem_filterMap.mp hc
    obtain ⟨hpnone, rfl⟩ := remotePass_shape hps
    have hp1 : p.1 = k.name := by simpa using hp
    rw [checksGet_ulS_none_iff] at hpnone
    exact hpnone k hk hp1.symm
  refine ⟨?_, ?_, ?_, ?_, ?_, ?_⟩
  · -- one Create per local-only name
    intro k hk hnone
    have hlk : localChangeFor deviceID now remoteChecks k =
        some { type := ChangeType.create, key := k, timestamp := now,
               deviceID := deviceID, checksum := some (ComputeChecksum k) } := by
      unfold localChangeFor
      rw [hnone]
    constructor
    · rw [List.countP_append]
      have hA1 : A.countP (fun c => c.key.name == k.name) = 1 := by
        rw [hA, List.countP_filterMap]
        refine countP_eq_one_of_unique Key.name localKeys hl k hk _ ?_ ?_
        · simp [hlk]
        · intro x hx hpx
          cases hcx : localChangeFor deviceID now remoteChecks x with
          | none => rw [hcx] at hpx; simp at hpx
          | some c =>
              rw [hcx] at hpx
              simp at hpx
              have hsh := localChangeFor_shape hcx
              rw [← hsh.2.1]
              exact hpx
      rw [hA1, hB0 k hk]
    · exact List.mem_append_left _ (List.mem_filterMap.mpr ⟨k, hk, hlk⟩)
  · -- one Update per name with differing checksums
    intro k hk rc hsome hne
    have hlk : localChangeFor deviceID now remoteChecks k =
        some { type := ChangeType.update, key := k, timestamp := now,
               deviceID := deviceID, checksum := some (ComputeChecksum k) } := by
      unfold localChangeFor
      rw [hsome]
      show (if ComputeChecksum k ≠ rc then
          some ({ type := ChangeType.update, key := k, timestamp := now,
                  deviceID := deviceID, checksum := some (ComputeChecksum k) } : KeyChange)
        else none) = _
      rw [if_pos hne]
    constructor
    · rw [List.countP_append]
      have hA1 : A.countP (fun c => c.key.name == k.name) = 1 := by
        rw [hA, List.countP_filterMap]
        refine countP_eq_one_of_unique Key.name localKeys hl k hk _ ?_ ?_
        · simp [hlk]
        · intro x hx hpx
          cases hcx : localChangeFor deviceID now remoteChecks x with
          | none => rw [hcx] at hpx; simp at hpx
          | some c =>
              rw [hcx] at hpx
              simp at hpx
              have hsh := localChangeFor_shape hcx
              rw [← hsh.2.1]
              exact hpx
      rw [hA1, hB0 k hk]
    · exact List.mem_append_left _ (List.mem_filterMap.mpr ⟨k, hk, hlk⟩)
  · -- no event per name with equal checksums
    intro k hk rc hsome heq
    rw [List.countP_append]
    have hA0 : A.countP (fun c => c.key.name == k.name) = 0 := by
      rw [List.countP_eq_zero]
      intro c hc hp
      obtain ⟨x, hx, hcx⟩ := List.mem_filterMap.mp hc
      have hsh := localChangeFor_shape hcx
      have hxname : x.name = k.name := by
        rw [← hsh.2.1]
        simpa using hp
      have hxk : x = k := List.inj_on_of_nodup_map hl hx hk hxname
      subst hxk
      have hcx2 : (if ComputeChecksum x ≠ rc then
          some ({ type := ChangeType.update, key := x, timestamp := now,
                  deviceID := deviceID, checksum := some (ComputeChecksum x) } : KeyChange)
        else none) = some c := by
        unfold localChangeFor at hcx
        rw [hsome] at hcx
        exact hcx
      rw [if_neg (fun hcon => hcon heq)] at hcx2
      exact Option.noConfusion hcx2
    rw [hA0, hB0 k hk]
  · -- one Delete per remote-only name
    intro p hp habsent
    have hnone : checksGet (UpdateLocalState localKeys) p.1 = none :=
      (checksGet_ulS_none_iff _ _).mpr habsent
    have hdel : remotePass deviceID now (UpdateLocalState localKeys) p =
        some { type := ChangeType.delete, key := { zeroKey with name := p.1 },
               timestamp := now, deviceID := deviceID, checksum := none } := by
      unfold remotePass
      rw [hnone]
    constructor
    · rw [List.countP_append]
      have hA0 : A.countP (fun c => c.key.name == p.1) = 0 := by
        rw [List.countP_eq_zero]
        intro c hc hpc
        obtain ⟨x, hx, hcx⟩ := List.mem_filterMap.mp hc
        have hsh := localChangeFor_shape hcx
        have hxname : x.name = p.1 := by
          rw [← hsh.2.1]
          simpa using hpc
        exact habsent x hx hxname
      have hB1 : B.countP (fun c => c.key.name == p.1) = 1 := by
        rw [hB, List.countP_filterMap]
        refine countP_eq_one_of_unique Prod.fst remoteChecks hr p hp _ ?_ ?_
        · simp [hdel]
        · intro q hq hpq
          cases hcq : remotePass deviceID now (UpdateLocalState localKeys) q with
          | none => rw [hcq] at hpq; simp at hpq
          | some c =>
              rw [hcq] at hpq
              simp at hpq
              obtain ⟨hqnone, rfl⟩ := remotePass_shape hcq
              simpa using hpq
      rw [hA0, hB1]
    · exact List.mem_append_right _ (List.mem_filterMap.mpr ⟨p, hp, hdel⟩)
  · -- Deletes after Creates and Updates
    refine ⟨A, B, rfl, ?_, ?_⟩
    · intro c hc
      obtain ⟨x, hx, hcx⟩ := List.mem_filterMap.mp hc
      exact (localChangeFor_shape hcx).2.2
    · intro c hc
      obtain ⟨p, hp, hps⟩ := List.mem_filterMap.mp hc
      obtain ⟨_, rfl⟩ := remotePass_shape hps
      rfl
  · -- empty mappings yield an empty list
    intro h1 h2
    subst h1
    subst h2
    rw [hA, hB]
    rfl

/-- C2 witness: the change-detection theorem at a one-key local set and a
one-name remote mapping with distinct names. -/
theorem detectChanges_correct_witness :
    DetectChangesSpec "dev" 7 [workKey] staleRemoteChecks :=
  detectChanges_correct "dev" 7 [workKey] staleRemoteChecks (by decide) (by decide)

/-! Claim C8: conflict detection. -/

/-- C8: for every pair of full record sets (local names distinct),
DetectConflicts returns exactly one ConflictResolution — carrying both full
records, the configured strategy and a zero ResolvedKey — per name present
in both sets whose checksums, recomputed from the full records, differ; and
none for names with equal checksums or present on only one side. -/
theorem detectConflicts_correct (strategy : SyncStrategy)
    (localKeys remoteKeys : List Key)
    (hl : (localKeys.map Key.name).Nodup) :
    DetectConflictsSpec strategy localKeys remoteKeys := by
  unfold DetectConflictsSpec ConflictsSpecOf DetectConflicts
  set C := localKeys.filterMap (conflictFor strategy remoteKeys) with hC
  refine ⟨?_, ?_, ?_, ?_, ?_⟩
  · -- one conflict per name in both sets with differing checksums
    intro lk hlk rk hrk hne
    have hflk : conflictFor strategy remoteKeys lk =
        some { keyName := lk.name, localKey := lk, remoteKey := rk,
               strategy := strategy, resolvedKey := zeroKey } := by
      unfold conflictFor
      rw [hrk]
      show (if ComputeChecksum lk ≠ ComputeChecksum rk then
          some ({ keyName := lk.name, localKey := lk, remoteKey := rk,
                  strategy := strategy, resolvedKey := zeroKey } : ConflictResolution)
        else none) = _
      rw [if_pos hne]
    constructor
    · rw [hC, List.countP_filterMap]
      refine countP_eq_one_of_unique Key.name localKeys hl lk hlk _ ?_ ?_
      · simp [hflk]
      · intro x hx hpx
        cases hcx : conflictFor strategy remoteKeys x with
        | none => rw [hcx] at hpx; simp at hpx
        | some c =>
            rw [hcx] at hpx
            simp at hpx
            obtain ⟨rk1, hrk1, hne1, rfl⟩ := conflictFor_shape hcx
            simpa using hpx
    · exact List.mem_filterMap.mpr ⟨lk, hlk, hflk⟩
  · -- equal checksums: no conflict
    intro lk hlk rk hrk heq
    rw [List.countP_eq_zero]
    intro c hc hp
    obtain ⟨x, hx, hcx⟩ := List.mem_filterMap.mp hc
    obtain ⟨rk1, hrk1, hne1, rfl⟩ := conflictFor_shape hcx
    have hxname : x.name = lk.name := by simpa using hp
    have hxk : x = lk := List.inj_on_of_nodup_map hl hx hlk hxname
    subst hxk
    rw [hrk] at hrk1
    exact hne1 (by rw [← Option.some.inj hrk1]; exact heq)
  · -- name absent remotely: no conflict
    intro lk hlk hnone
    rw [List.countP_eq_zero]
    intro c hc hp
    obtain ⟨x, hx, hcx⟩ := List.mem_filterMap.mp hc
    obtain ⟨rk1, hrk1, hne1, rfl⟩ := conflictFor_shape hcx
    have hxname : x.name = lk.name := by simpa using hp
    rw [hxname, hnone] at hrk1
    exact Option.noConfusion hrk1
  · -- name absent locally: no conflict
    intro n habsent
    rw [List.countP_eq_zero]
    intro c hc hp
    obtain ⟨x, hx, hcx⟩ := List.mem_filterMap.mp hc
    obtain ⟨rk1, hrk1, hne1, rfl⟩ := conflictFor_shape hcx
    exact habsent x hx (by simpa using hp)
  · -- every conflict carries the strategy and a zero ResolvedKey
    intro c hc
    obtain ⟨x, hx, hcx⟩ := List.mem_filterMap.mp hc
    obtain ⟨rk1, hrk1, hne1, rfl⟩ := conflictFor_shape hcx
    exact ⟨rfl, rfl⟩

/-- C8 witness: the conflict-detection theorem at two one-key record sets
sharing a name but differing in a qualifying field. -/
theorem detectConflicts_correct_witness :
    DetectConflictsSpec StrategyNewerWins [tieLocalKey] [tieRemoteKey] :=
  detectConflicts_correct StrategyNewerWins [tieLocalKey] [tieRemoteKey] (by decide)

end SyncSpec
